import Mathlib

/-!
Verification of the medical-document ingestion pipeline
(`ocr_processor.py`, `text_processor.py`).

Strings are modelled as `List Char`.  The regular-expression engine below is a
shallow embedding of the subset of Python `re` used by the source: character
classes, literals, alternation (left-first), greedy star/plus over a single
character class, greedy option, bounded repetition (encoded via option),
capture groups, word boundaries, and the `IGNORECASE` flag.  `re.findall` and
`re.search` are modelled with Python's leftmost scan and first-result
(backtracking-priority) semantics; the matcher returns candidate matches in
exactly Python's backtracking priority order, so the head of the list is the
match Python reports.  Character classes are ASCII (the Unicode extension of
`\w`/`\d`/`\s` is irrelevant to the texts and properties considered here).
-/

abbrev Str := List Char

/-- ASCII whitespace, as in Python's `\s` on ASCII text. -/
def isSpaceC (c : Char) : Bool :=
  c = ' ' || c = '\t' || c = '\n' || c = '\r' || c = '\x0b' || c = '\x0c'

def isDigitC (c : Char) : Bool := '0' ≤ c && c ≤ '9'

def isUpperC (c : Char) : Bool := 'A' ≤ c && c ≤ 'Z'

def isLowerC (c : Char) : Bool := 'a' ≤ c && c ≤ 'z'

def isAlphaC (c : Char) : Bool := isUpperC c || isLowerC c

/-- Python's `\w` on ASCII text. -/
def isWordC (c : Char) : Bool := isAlphaC c || isDigitC c || c = '_'

/-- Python `str.strip()` (ASCII whitespace). -/
def pyStrip (s : Str) : Str :=
  ((s.dropWhile isSpaceC).reverse.dropWhile isSpaceC).reverse

/-- Python `str.isspace()`: nonempty and all whitespace. -/
def pyIsSpace (s : Str) : Bool := !s.isEmpty && s.all isSpaceC

/-- Character comparison, honouring the `IGNORECASE` flag. -/
def eqC (ci : Bool) (p c : Char) : Bool :=
  if ci then p.toLower = c.toLower else p = c

/-- Class membership, honouring the `IGNORECASE` flag (a class matches `c`
iff `c`, its lowercase, or its uppercase image is in the class). -/
def inCls (ci : Bool) (p : Char → Bool) (c : Char) : Bool :=
  if ci then p c || p c.toLower || p c.toUpper else p c

/-- The regular-expression fragment used by the source patterns. -/
inductive RE where
  | eps : RE
  | cls (p : Char → Bool) : RE
  | lit (l : Str) : RE
  | seq (a b : RE) : RE
  | alt (a b : RE) : RE
  | starCls (p : Char → Bool) : RE
  | plusCls (p : Char → Bool) : RE
  | grp (i : Nat) (a : RE) : RE
  | bnd : RE

/-- Greedy `?`. -/
def rOpt (a : RE) : RE := RE.alt a RE.eps

def reSeq (l : List RE) : RE := l.foldr RE.seq RE.eps

def alts : List RE → RE
  | [] => RE.eps
  | [a] => a
  | a :: rest => RE.alt a (alts rest)

/-- `{1,2}` as greedy option chaining. -/
def rep12 (a : RE) : RE := RE.seq a (rOpt a)

/-- `{2,4}` as greedy option chaining. -/
def rep24 (a : RE) : RE := reSeq [a, a, rOpt a, rOpt a]

def rep3 (a : RE) : RE := reSeq [a, a, a]

def rep4 (a : RE) : RE := reSeq [a, a, a, a]

abbrev Caps := List (Nat × Str)

/-- Literal matching: returns the consumed characters of the subject and the
rest, if the literal matches a prefix. -/
def litM (ci : Bool) : Str → Str → Option (Str × Str)
  | [], s => some ([], s)
  | _ :: _, [] => none
  | p :: ps, c :: s =>
    if eqC ci p c then (litM ci ps s).map (fun ur => (c :: ur.1, ur.2)) else none

/-- Maximal run of class characters. -/
def takeRun (f : Char → Bool) : Str → Str × Str
  | [] => ([], [])
  | c :: rest =>
    if f c then
      let ur := takeRun f rest
      (c :: ur.1, ur.2)
    else ([], c :: rest)

/-- All splits of `u ++ r` at positions inside `u`, longest consumed prefix
first (greedy priority order). -/
def splitsDesc : Str → Str → List (Str × Str)
  | [], r => [([], r)]
  | c :: u, r =>
    ((splitsDesc u r).map (fun xy => (c :: xy.1, xy.2))) ++ [([], c :: u ++ r)]

def isWordO : Option Char → Bool
  | none => false
  | some c => isWordC c

/-- Pick up the character preceding the remainder after consuming `u`. -/
def lastPrev (u : Str) (prev : Option Char) : Option Char :=
  match u.getLast? with
  | some c => some c
  | none => prev

/-- All candidate matches of a regex at the current position, in Python's
backtracking priority order.  `prev` is the character just before the current
position (for `\b`).  Each result is (consumed, rest, captures). -/
def RE.m (ci : Bool) : RE → Option Char → Str → List (Str × Str × Caps)
  | .eps, _, s => [([], s, [])]
  | .cls p, _, s =>
    match s with
    | [] => []
    | c :: rest => if inCls ci p c then [([c], rest, [])] else []
  | .lit l, _, s =>
    match litM ci l s with
    | some (u, r) => [(u, r, [])]
    | none => []
  | .seq a b, prev, s =>
    (RE.m ci a prev s).flatMap fun urc =>
      (RE.m ci b (lastPrev urc.1 prev) urc.2.1).map fun vrc =>
        (urc.1 ++ vrc.1, vrc.2.1, urc.2.2 ++ vrc.2.2)
  | .alt a b, prev, s => RE.m ci a prev s ++ RE.m ci b prev s
  | .starCls p, _, s =>
    let ur := takeRun (inCls ci p) s
    (splitsDesc ur.1 ur.2).map (fun xy => (xy.1, xy.2, []))
  | .plusCls p, _, s =>
    let ur := takeRun (inCls ci p) s
    ((splitsDesc ur.1 ur.2).dropLast).map (fun xy => (xy.1, xy.2, []))
  | .grp i a, prev, s =>
    (RE.m ci a prev s).map fun urc => (urc.1, urc.2.1, (i, urc.1) :: urc.2.2)
  | .bnd, prev, s =>
    if isWordO prev != isWordO s.head? then [([], s, [])] else []

/-- `re.search`: scan left to right, report the first position with a match;
returns (consumed, captures). -/
def searchAux (ci : Bool) (re : RE) : Option Char → Str → Option (Str × Caps)
  | prev, [] => (RE.m ci re prev []).head?.map (fun urc => (urc.1, urc.2.2))
  | prev, c :: s' =>
    match (RE.m ci re prev (c :: s')).head? with
    | some urc => some (urc.1, urc.2.2)
    | none => searchAux ci re (some c) s'

def reSearch (ci : Bool) (re : RE) (s : Str) : Option (Str × Caps) :=
  searchAux ci re none s

/-- `re.findall`: non-overlapping leftmost matches; after a match the scan
resumes at its end (after an empty match, one character further — the source
patterns never match the empty string). -/
def findAllAux (ci : Bool) (re : RE) : Nat → Option Char → Str → List (Str × Caps)
  | 0, _, _ => []
  | fuel + 1, prev, [] =>
    match (RE.m ci re prev []).head? with
    | some (u, rest, caps) =>
      if u.isEmpty then [(u, caps)]
      else (u, caps) :: findAllAux ci re fuel (lastPrev u prev) rest
    | none => []
  | fuel + 1, prev, c :: s' =>
    match (RE.m ci re prev (c :: s')).head? with
    | some (u, rest, caps) =>
      if u.isEmpty then (u, caps) :: findAllAux ci re fuel (some c) s'
      else (u, caps) :: findAllAux ci re fuel (lastPrev u prev) rest
    | none => findAllAux ci re fuel (some c) s'

def findAll (ci : Bool) (re : RE) (s : Str) : List (Str × Caps) :=
  findAllAux ci re (s.length + 1) none s

/-- `re.findall` when the pattern has no capture group: whole matches. -/
def findAllW (ci : Bool) (re : RE) (s : Str) : List Str :=
  (findAll ci re s).map (·.1)

/-- `re.findall` when the pattern has exactly one group: the group texts. -/
def findAllG1 (ci : Bool) (re : RE) (s : Str) : List Str :=
  (findAll ci re s).map (fun uc => ((uc.2.lookup 1).getD []))

/-- `re.findall` when the pattern has three groups: triples of group texts. -/
def findAll3 (ci : Bool) (re : RE) (s : Str) : List (Str × Str × Str) :=
  (findAll ci re s).map (fun uc =>
    ((uc.2.lookup 1).getD [], (uc.2.lookup 2).getD [], (uc.2.lookup 3).getD []))

/-- `re.search(...).group(1)`. -/
def searchG1 (ci : Bool) (re : RE) (s : Str) : Option Str :=
  (reSearch ci re s).map (fun uc => (uc.2.lookup 1).getD [])

/-- Truthiness of `re.search` (used for `if re.search(...)`). -/
def searchBool (ci : Bool) (re : RE) (s : Str) : Bool :=
  (reSearch ci re s).isSome

/-- Shorthand for string literals in patterns. -/
def l (s : String) : RE := RE.lit s.data

/-!
## `ocr_processor.py`

`preprocess_image` and `process_image` interact with external libraries
(OpenCV, PIL, pytesseract); those calls are modelled as oracles.  An attempt
that raises is `none`; one that returns text is `some text`.
-/

/-- `preprocess_image` (`ocr_processor.py` lines 32–75).
`primary` models `cv2.imdecode` (`none` = decode failure, which the code turns
into a raised `ValueError`); `steps` models the grayscale → adaptive threshold
→ bilateral filter → CLAHE → dilation chain (`none` = some step raised);
`fallback` models `PIL.Image.open` on the raw bytes (`none` = it raised).
Any exception in the `try` block falls to the `except` handler, which returns
the fallback image or re-raises `"Failed to process the image"`. -/
def preprocess_image {Img : Type} (primary : Option Img) (steps : Img → Option Img)
    (fallback : Option Img) : Except String Img :=
  match (match primary with
         | none => none
         | some img => steps img) with
  | some out => Except.ok out
  | none =>
    match fallback with
    | some i => Except.ok i
    | none => Except.error "Failed to process the image"

/-- The acceptance test of `process_image` (`ocr_processor.py` line 114):
`text and not text.isspace() and len(text.strip()) > 10`. -/
def acceptable (t : Str) : Bool :=
  !t.isEmpty && !(pyIsSpace t) && decide ((pyStrip t).length > 10)

def psm_modes : List Nat := [4, 6, 3, 1]

def oem_modes : List Nat := [1, 3]

def sentinel_text : Str := "No text could be extracted from the image.".data

/-- The inner loop of `process_image` (lines 102–119): try each engine mode;
on an acceptable result assign `all_text` and break; a raised attempt
(`none`) is logged and skipped; a non-acceptable result leaves `all_text`
unchanged.  Returns the value of `all_text` after the loop (initially `""`). -/
def tryOems (ocr : Nat → Nat → Option Str) (psm : Nat) : List Nat → Str
  | [] => []
  | oem :: rest =>
    match ocr psm oem with
    | some t => if acceptable t then t else tryOems ocr psm rest
    | none => tryOems ocr psm rest

/-- The outer loop of `process_image` (lines 95–123): for each segmentation
mode run the inner loop; `if all_text: break`. -/
def tryPsms (ocr : Nat → Nat → Option Str) : List Nat → Str
  | [] => []
  | psm :: rest =>
    let r := tryOems ocr psm oem_modes
    if r.isEmpty then tryPsms ocr rest else r

/-- `process_image` (`ocr_processor.py` lines 77–137) given a successfully
preprocessed image.  `ocr psm oem` models
`pytesseract.image_to_string(processed_image, config=f'--oem {oem} --psm {psm}')`
and `dflt` models the unconfigured `pytesseract.image_to_string(processed_image)`
(`none` = the call raised; that exception is caught and logged).
Mirrors: the loop matrix, then `if not all_text:` the default attempt, then
`return all_text or "No text could be extracted from the image."`. -/
def process_image (ocr : Nat → Nat → Option Str) (dflt : Option Str) : Str :=
  let all_text := tryPsms ocr psm_modes
  let all_text2 :=
    if all_text.isEmpty then
      match dflt with
      | some t => t
      | none => all_text
    else all_text
  if all_text2.isEmpty then sentinel_text else all_text2

/-- Modelled from the spec's words (§4.2): the profile priority list,
segmentation mode outer, engine mode inner. -/
def profile_list : List (Nat × Nat) :=
  [(4, 1), (4, 3), (6, 1), (6, 3), (3, 1), (3, 3), (1, 1), (1, 3)]

/-- Modelled from the spec's words (§4.2): the first acceptable profile's
output in priority order. -/
def firstAcceptable (ocr : Nat → Nat → Option Str) : List (Nat × Nat) → Option Str
  | [] => none
  | (p, o) :: rest =>
    match ocr p o with
    | some t => if acceptable t then some t else firstAcceptable ocr rest
    | none => firstAcceptable ocr rest

/-- Modelled from the spec's words (§4.2): first acceptable profile, else a
final default attempt, else the sentinel. -/
def recognize_spec (ocr : Nat → Nat → Option Str) (dflt : Option Str) : Str :=
  match firstAcceptable ocr profile_list with
  | some t => t
  | none =>
    match dflt with
    | some t => if t.isEmpty then sentinel_text else t
    | none => sentinel_text

/-!
## `text_processor.py`

The medical-terms vocabulary is the built-in default of lines 16–32 (the
`medical_terms.json` fallback).  The optional spaCy model is modelled as
unavailable (`SPACY_AVAILABLE = False`, the `except` branch of lines 38–43),
so the named-entity contribution branches are skipped, as the spec's §4.3
allows ("its absence must not fail extraction, only silently skip").
-/

def MEDICAL_TERMS_medications : List String := []

def MEDICAL_TERMS_common_dosages : List String :=
  ["mg", "mcg", "ml", "g", "tablet", "capsule", "injection", "daily",
   "twice daily", "three times daily"]

def MEDICAL_TERMS_lab_test_names : List String := []

def MEDICAL_TERMS_medical_abbreviations : List (String × String) :=
  [("qd", "once daily"), ("bid", "twice daily"), ("tid", "three times daily"),
   ("qid", "four times daily"), ("prn", "as needed"), ("po", "by mouth"),
   ("sc", "subcutaneous"), ("im", "intramuscular"), ("iv", "intravenous")]

def dcls : RE := RE.cls isDigitC

def months : RE :=
  alts [l "Jan", l "Feb", l "Mar", l "Apr", l "May", l "Jun", l "Jul",
        l "Aug", l "Sep", l "Oct", l "Nov", l "Dec"]

/-- `\b\d{1,2}/\d{1,2}/\d{2,4}\b` -/
def date_pat1 : RE :=
  reSeq [RE.bnd, rep12 dcls, l "/", rep12 dcls, l "/", rep24 dcls, RE.bnd]

/-- `\b\d{1,2}-\d{1,2}-\d{2,4}\b` -/
def date_pat2 : RE :=
  reSeq [RE.bnd, rep12 dcls, l "-", rep12 dcls, l "-", rep24 dcls, RE.bnd]

/-- `\b(?:Jan|...|Dec)[a-z]* \d{1,2},? \d{4}\b` -/
def date_pat3 : RE :=
  reSeq [RE.bnd, months, RE.starCls isLowerC, l " ", rep12 dcls,
         rOpt (l ","), l " ", rep4 dcls, RE.bnd]

/-- `\b\d{1,2} (?:Jan|...|Dec)[a-z]* \d{4}\b` -/
def date_pat4 : RE :=
  reSeq [RE.bnd, rep12 dcls, l " ", months, RE.starCls isLowerC, l " ",
         rep4 dcls, RE.bnd]

def date_patterns : List RE := [date_pat1, date_pat2, date_pat3, date_pat4]

/-- `extract_dates` (`text_processor.py` lines 45–60): for each pattern,
`re.findall(pattern, text, re.IGNORECASE)`, extending the accumulator. -/
def extract_dates (text : Str) : List Str :=
  date_patterns.foldl (fun dates p => dates ++ findAllW true p text) []

/-- Modelled from the spec's words (§4.3 / C7): the same union but
"deduplicated only within a single pattern's matches". -/
def extract_dates_claimed (text : Str) : List Str :=
  date_patterns.foldl
    (fun dates p =>
      dates ++ ((findAllW true p text).foldl
        (fun acc x => if acc.contains x then acc else acc ++ [x]) []))
    []

/-- `r'\b' + re.escape(w) + r'\b'` -/
def wordPat (w : String) : RE := reSeq [RE.bnd, RE.lit w.data, RE.bnd]

/-- `\b\w+\s+\d+\s*(?:mg|mcg|...|three times daily)\b` (line 72). -/
def dosage_pattern : RE :=
  reSeq [RE.bnd, RE.plusCls isWordC, RE.plusCls isSpaceC, RE.plusCls isDigitC,
         RE.starCls isSpaceC, alts (MEDICAL_TERMS_common_dosages.map l), RE.bnd]

/-- Python `list(set(xs))`, fixed here to first-occurrence order (the set's
iteration order is unspecified in Python; no claim depends on the order, only
on membership and emptiness, which agree with every order). -/
def pySetList (xs : List Str) : List Str :=
  xs.foldl (fun acc x => if acc.contains x then acc else acc ++ [x]) []

/-- `extract_medications` (lines 62–84): known-name lookups (vocabulary is
empty in the default terms), dosage-pattern matches, then `list(set(...))`. -/
def extract_medications (text : Str) : List Str :=
  let medications :=
    (MEDICAL_TERMS_medications.filter
      (fun med => searchBool true (wordPat med) text)).map String.data
  let medications := medications ++ findAllW true dosage_pattern text
  pySetList medications

def colonSpaceC (c : Char) : Bool := c = ':' || isSpaceC c

def dashDotSpaceC (c : Char) : Bool := c = '-' || c = '.' || isSpaceC c

def dashSlashC (c : Char) : Bool := c = '-' || c = '/'

/-- `[A-Z][a-z]+` -/
def nameWord : RE := RE.seq (RE.cls isUpperC) (RE.plusCls isLowerC)

/-- `[A-Z][a-z]+(?:\s+[A-Z][a-z]+){1,2}` -/
def nameRE : RE :=
  RE.seq nameWord (rep12 (RE.seq (RE.plusCls isSpaceC) nameWord))

/-- `(?:Dr\.|Doctor)\s+([A-Z][a-z]+(?:\s+[A-Z][a-z]+){1,2})` -/
def doctor_pat1 : RE :=
  reSeq [alts [l "Dr.", l "Doctor"], RE.plusCls isSpaceC, RE.grp 1 nameRE]

/-- `(?:Physician|Provider):\s*([A-Z][a-z]+(?:\s+[A-Z][a-z]+){1,2})` -/
def doctor_pat2 : RE :=
  reSeq [alts [l "Physician", l "Provider"], l ":", RE.starCls isSpaceC,
         RE.grp 1 nameRE]

/-- `(\(\d{3}\)\s*\d{3}-\d{4}|\d{3}[-.\s]\d{3}[-.\s]\d{4}|\d{10})` -/
def phone_core : RE :=
  alts [reSeq [l "(", rep3 dcls, l ")", RE.starCls isSpaceC, rep3 dcls,
               l "-", rep4 dcls],
        reSeq [rep3 dcls, RE.cls dashDotSpaceC, rep3 dcls,
               RE.cls dashDotSpaceC, rep4 dcls],
        reSeq (List.replicate 10 dcls)]

/-- `(?:Phone|Tel|Contact)(?::|number)?[:\s]*(...)` (line 103). -/
def phone_pattern : RE :=
  reSeq [alts [l "Phone", l "Tel", l "Contact"],
         rOpt (alts [l ":", l "number"]), RE.starCls colonSpaceC,
         RE.grp 1 phone_core]

/-- The `for pattern in ...: match = re.search(...); if match: ...; break`
idiom: first pattern whose search succeeds, yielding `group(1)`. -/
def searchFirstG1 (ci : Bool) (pats : List RE) (text : Str) : Option Str :=
  match pats with
  | [] => none
  | p :: rest =>
    match searchG1 ci p text with
    | some g => some g
    | none => searchFirstG1 ci rest text

/-- `extract_doctor_info` (lines 86–108).  The name patterns are searched
with **no** flags (case-sensitive, line 97); the phone pattern with
`re.IGNORECASE` (line 104). -/
def extract_doctor_info (text : Str) : List (String × Str) :=
  (match searchFirstG1 false [doctor_pat1, doctor_pat2] text with
   | some n => [("name", n)]
   | none => []) ++
  (match searchG1 true phone_pattern text with
   | some p => [("phone", p)]
   | none => [])

/-- `(?:Patient|Name):\s*([A-Z][a-z]+(?:\s+[A-Z][a-z]+){1,2})` -/
def patient_name_pat1 : RE :=
  reSeq [alts [l "Patient", l "Name"], l ":", RE.starCls isSpaceC,
         RE.grp 1 nameRE]

/-- `(?:Patient|Name)[:\s]+([A-Z][a-z]+(?:\s+[A-Z][a-z]+){1,2})` -/
def patient_name_pat2 : RE :=
  reSeq [alts [l "Patient", l "Name"], RE.plusCls colonSpaceC, RE.grp 1 nameRE]

/-- The DOB core group: digits{1,2}, dash-or-slash, digits{1,2},
dash-or-slash, digits{2,4}.  (In the source the class is written as a dash
followed by a slash in square brackets, which cannot appear verbatim inside
this comment.) -/
def dobRE : RE :=
  reSeq [rep12 dcls, RE.cls dashSlashC, rep12 dcls, RE.cls dashSlashC,
         rep24 dcls]

/-- `(?:DOB|Date of Birth)[:\s]*(...)` -/
def dob_pat1 : RE :=
  reSeq [alts [l "DOB", l "Date of Birth"], RE.starCls colonSpaceC,
         RE.grp 1 dobRE]

/-- `(?:Born|Birth)[:\s]*(...)` -/
def dob_pat2 : RE :=
  reSeq [alts [l "Born", l "Birth"], RE.starCls colonSpaceC, RE.grp 1 dobRE]

def idC (c : Char) : Bool := isUpperC c || isDigitC c || c = '-'

/-- `(?:ID|Patient ID|MRN)[:\s]*([A-Z0-9-]+)` -/
def id_pat1 : RE :=
  reSeq [alts [l "ID", l "Patient ID", l "MRN"], RE.starCls colonSpaceC,
         RE.grp 1 (RE.plusCls idC)]

/-- `(?:Medical Record Number)[:\s]*([A-Z0-9-]+)` -/
def id_pat2 : RE :=
  reSeq [l "Medical Record Number", RE.starCls colonSpaceC,
         RE.grp 1 (RE.plusCls idC)]

/-- `extract_patient_info` (lines 110–150): name, dob, id sub-fields, each
the first matching pattern of its pair, all with `re.IGNORECASE`; keys in
insertion order. -/
def extract_patient_info (text : Str) : List (String × Str) :=
  (match searchFirstG1 true [patient_name_pat1, patient_name_pat2] text with
   | some n => [("name", n)]
   | none => []) ++
  (match searchFirstG1 true [dob_pat1, dob_pat2] text with
   | some d => [("dob", d)]
   | none => []) ++
  (match searchFirstG1 true [id_pat1, id_pat2] text with
   | some i => [("id", i)]
   | none => [])

structure LabR where
  test : Str
  value : Str
  unit : Str
deriving DecidableEq

def letterSpaceC (c : Char) : Bool := isAlphaC c || isSpaceC c

def unitC (c : Char) : Bool := isAlphaC c || c = '/' || c = '%'

/-- `(\d+\.?\d*)` -/
def numRE : RE :=
  reSeq [RE.plusCls isDigitC, rOpt (l "."), RE.starCls isDigitC]

/-- `([A-Za-z\s]+):\s*(\d+\.?\d*)\s*([A-Za-z/%]+)` (line 157). -/
def result_pattern : RE :=
  reSeq [RE.grp 1 (RE.plusCls letterSpaceC), l ":", RE.starCls isSpaceC,
         RE.grp 2 numRE, RE.starCls isSpaceC, RE.grp 3 (RE.plusCls unitC)]

/-- `fr'{re.escape(test_name)}[:\s]*(\d+\.?\d*)\s*([A-Za-z/%]+)'` (line 172). -/
def value_pattern (name : String) : RE :=
  reSeq [RE.lit name.data, RE.starCls colonSpaceC, RE.grp 1 numRE,
         RE.starCls isSpaceC, RE.grp 2 (RE.plusCls unitC)]

def isPrefixB : Str → Str → Bool
  | [], _ => true
  | _ :: _, [] => false
  | a :: as_, b :: bs => a = b && isPrefixB as_ bs

/-- Python `needle in hay` on strings. -/
def containsSub (hay needle : Str) : Bool :=
  match hay with
  | [] => needle.isEmpty
  | _ :: rest => isPrefixB needle hay || containsSub rest needle

def lowerS (s : Str) : Str := s.map Char.toLower

/-- `extract_lab_results` (lines 152–182): the generic pattern is matched
with **no** flags (line 158); the known-test-name loop (empty vocabulary in
the default terms) lowercase-substring-tests and then searches with
`re.IGNORECASE`. -/
def extract_lab_results (text : Str) : List LabR :=
  let fromPattern := (findAll3 false result_pattern text).map
    (fun tvu => { test := pyStrip tvu.1, value := tvu.2.1, unit := tvu.2.2 })
  let fromKnown := MEDICAL_TERMS_lab_test_names.filterMap (fun name =>
    if containsSub (lowerS text) (lowerS name.data) then
      (reSearch true (value_pattern name) text).map (fun uc =>
        { test := name.data, value := (uc.2.lookup 1).getD [],
          unit := (uc.2.lookup 2).getD [] })
    else none)
  fromPattern ++ fromKnown

def notDotSemiC (c : Char) : Bool := !(c = '.' || c = ';')

/-- `(daily|twice daily|three times daily|every \d+ hours)` -/
def freqRE : RE :=
  alts [l "daily", l "twice daily", l "three times daily",
        reSeq [l "every ", RE.plusCls isDigitC, l " hours"]]

/-- `(?:Take|Use|Apply)[^.;]+(daily|twice daily|three times daily|every \d+ hours)[^.;]+` -/
def instr_pat1 : RE :=
  reSeq [alts [l "Take", l "Use", l "Apply"], RE.plusCls notDotSemiC,
         RE.grp 1 freqRE, RE.plusCls notDotSemiC]

/-- `Instructions?:[^.;]+` -/
def instr_pat2 : RE :=
  reSeq [l "Instruction", rOpt (l "s"), l ":", RE.plusCls notDotSemiC]

/-- `Directions?:[^.;]+` -/
def instr_pat3 : RE :=
  reSeq [l "Direction", rOpt (l "s"), l ":", RE.plusCls notDotSemiC]

/-- `extract_instructions` (lines 184–205): the first pattern has one capture
group (so `findall` yields the captured frequency tokens); the other two have
none (whole matches); then the abbreviation expansions. -/
def extract_instructions (text : Str) : List Str :=
  let instructions := findAllG1 true instr_pat1 text ++
    findAllW true instr_pat2 text ++ findAllW true instr_pat3 text
  instructions ++ MEDICAL_TERMS_medical_abbreviations.filterMap (fun af =>
    if searchBool true (wordPat af.1) text then
      some ((af.1 ++ " (" ++ af.2 ++ ")").data)
    else none)

/-- `Diagnosis(?:es)?:[^.;]+` -/
def diag_pat1 : RE :=
  reSeq [l "Diagnosis", rOpt (l "es"), l ":", RE.plusCls notDotSemiC]

/-- `Assessment:[^.;]+` -/
def diag_pat2 : RE := reSeq [l "Assessment:", RE.plusCls notDotSemiC]

/-- `Condition(?:s)?:[^.;]+` -/
def diag_pat3 : RE :=
  reSeq [l "Condition", rOpt (l "s"), l ":", RE.plusCls notDotSemiC]

/-- `extract_diagnoses` (lines 207–231). -/
def extract_diagnoses (text : Str) : List Str :=
  findAllW true diag_pat1 text ++ findAllW true diag_pat2 text ++
    findAllW true diag_pat3 text

/-- A value in the entity map: a list of strings, a list of lab records, a
string-valued sub-dictionary, or a bare string (for `raw_text`). -/
inductive EValue where
  | strs (xs : List Str) : EValue
  | labs (xs : List LabR) : EValue
  | dict (xs : List (String × Str)) : EValue
  | str (s : Str) : EValue
deriving DecidableEq

/-- Python truthiness of the value (line 284's `if v`). -/
def EValue.truthy : EValue → Bool
  | .strs xs => !xs.isEmpty
  | .labs xs => !xs.isEmpty
  | .dict xs => !xs.isEmpty
  | .str s => !s.isEmpty

/-- `extract_medical_entities` (`text_processor.py` lines 233–291), happy
path: the common extractions, the document-type-specific `update`s (fresh
keys appended in insertion order, as in a Python dict), then the removal of
empty lists/dicts (line 284).  The `except` branch is modelled separately by
`extract_medical_entities_f`. -/
def extract_medical_entities (text : Str) (document_type : String) :
    List (String × EValue) :=
  let results := [("dates", EValue.strs (extract_dates text)),
                  ("patient_info", EValue.dict (extract_patient_info text))]
  let results := results ++
    (if document_type = "prescription" then
       [("medications", EValue.strs (extract_medications text)),
        ("doctor_info", EValue.dict (extract_doctor_info text)),
        ("instructions", EValue.strs (extract_instructions text))]
     else if document_type = "lab_report" then
       [("lab_results", EValue.labs (extract_lab_results text)),
        ("doctor_info", EValue.dict (extract_doctor_info text))]
     else if document_type = "medical_note" then
       [("diagnoses", EValue.strs (extract_diagnoses text)),
        ("doctor_info", EValue.dict (extract_doctor_info text)),
        ("medications", EValue.strs (extract_medications text))]
     else
       [("medications", EValue.strs (extract_medications text)),
        ("doctor_info", EValue.dict (extract_doctor_info text)),
        ("instructions", EValue.strs (extract_instructions text)),
        ("lab_results", EValue.labs (extract_lab_results text)),
        ("diagnoses", EValue.strs (extract_diagnoses text))])
  results.filter (fun kv => kv.2.truthy)

/-- Modelled from the spec's words (§4.3 dispatch): the category names run
for a document type, in insertion order. -/
def selectedCats (document_type : String) : List String :=
  ["dates", "patient_info"] ++
  (if document_type = "prescription" then
     ["medications", "doctor_info", "instructions"]
   else if document_type = "lab_report" then
     ["lab_results", "doctor_info"]
   else if document_type = "medical_note" then
     ["diagnoses", "doctor_info", "medications"]
   else
     ["medications", "doctor_info", "instructions", "lab_results", "diagnoses"])

/-- Modelled from the spec's words (§4.3): the extractor belonging to a
category name. -/
def runCat (k : String) (text : Str) : EValue :=
  if k = "dates" then .strs (extract_dates text)
  else if k = "patient_info" then .dict (extract_patient_info text)
  else if k = "medications" then .strs (extract_medications text)
  else if k = "doctor_info" then .dict (extract_doctor_info text)
  else if k = "instructions" then .strs (extract_instructions text)
  else if k = "lab_results" then .labs (extract_lab_results text)
  else if k = "diagnoses" then .strs (extract_diagnoses text)
  else .strs []

/-- Sequential evaluation of the category extractors inside the `try` block,
with a fallible extractor oracle `E` (`Except.error ()` = the extractor
raised).  The first fault aborts the whole block. -/
def buildF (E : String → Str → Except Unit EValue) (text : Str) :
    List String → Except Unit (List (String × EValue))
  | [] => Except.ok []
  | k :: rest =>
    match E k text with
    | .error e => Except.error e
    | .ok v =>
      match buildF E text rest with
      | .error e => Except.error e
      | .ok lst => Except.ok ((k, v) :: lst)

/-- `extract_medical_entities` with its `try`/`except` control flow (lines
244–291): any extractor fault collapses the whole call to
`{"raw_text": text}` (line 291); otherwise the built map is filtered for
truthiness and returned.  The function never propagates the fault. -/
def extract_medical_entities_f (E : String → Str → Except Unit EValue)
    (text : Str) (document_type : String) : List (String × EValue) :=
  match buildF E text (selectedCats document_type) with
  | .ok lst => lst.filter (fun kv => kv.2.truthy)
  | .error _ => [("raw_text", EValue.str text)]

/-!
## Helper lemmas: recognition engine
-/

def isFailure {ε α : Type} : Except ε α → Bool
  | .error _ => true
  | .ok _ => false

theorem acceptable_isEmpty_false {t : Str} (h : acceptable t = true) :
    t.isEmpty = false := by
  cases hh : t.isEmpty
  · rfl
  · simp [acceptable, hh] at h

theorem firstAcceptable_acceptable {ocr : Nat → Nat → Option Str} :
    ∀ {ps : List (Nat × Nat)} {t : Str},
      firstAcceptable ocr ps = some t → acceptable t = true := by
  intro ps
  induction ps with
  | nil => intro t h; simp [firstAcceptable] at h
  | cons po rest ih =>
    intro t h
    obtain ⟨p, o⟩ := po
    unfold firstAcceptable at h
    cases hc : ocr p o with
    | none =>
      simp only [hc] at h
      exact ih h
    | some u =>
      simp only [hc] at h
      by_cases ha : acceptable u = true
      · rw [if_pos ha] at h
        cases h
        exact ha
      · rw [if_neg ha] at h
        exact ih h

theorem tryOems_eq (ocr : Nat → Nat → Option Str) (p : Nat) :
    ∀ oems : List Nat,
      tryOems ocr p oems =
        (firstAcceptable ocr (oems.map (fun o => (p, o)))).getD [] := by
  intro oems
  induction oems with
  | nil => rfl
  | cons o rest ih =>
    unfold tryOems firstAcceptable
    simp only [List.map_cons]
    cases hc : ocr p o with
    | none => simpa [hc] using ih
    | some u =>
      by_cases ha : acceptable u = true
      · simp [hc, ha]
      · simpa [hc, ha] using ih

theorem firstAcceptable_append (ocr : Nat → Nat → Option Str) :
    ∀ l₁ l₂ : List (Nat × Nat),
      firstAcceptable ocr (l₁ ++ l₂) =
        (match firstAcceptable ocr l₁ with
         | some t => some t
         | none => firstAcceptable ocr l₂) := by
  intro l₁ l₂
  induction l₁ with
  | nil => rfl
  | cons po rest ih =>
    obtain ⟨p, o⟩ := po
    have step : ∀ ps : List (Nat × Nat),
        firstAcceptable ocr ((p, o) :: ps) =
          match ocr p o with
          | some t => if acceptable t = true then some t else firstAcceptable ocr ps
          | none => firstAcceptable ocr ps := fun ps => rfl
    rw [List.cons_append, step, step]
    cases hc : ocr p o with
    | none => simpa [hc] using ih
    | some u =>
      by_cases ha : acceptable u = true
      · simp [hc, ha]
      · simpa [hc, ha] using ih

theorem tryPsms_eq (ocr : Nat → Nat → Option Str) :
    ∀ psms : List Nat,
      tryPsms ocr psms =
        (firstAcceptable ocr
          (psms.flatMap (fun p => oem_modes.map (fun o => (p, o))))).getD [] := by
  intro psms
  induction psms with
  | nil => rfl
  | cons p rest ih =>
    unfold tryPsms
    simp only [List.flatMap_cons]
    rw [firstAcceptable_append, tryOems_eq]
    cases hc : firstAcceptable ocr (oem_modes.map (fun o => (p, o))) with
    | none => simpa using ih
    | some t =>
      have ht := acceptable_isEmpty_false (firstAcceptable_acceptable hc)
      simp [ht]

theorem profile_list_eq :
    psm_modes.flatMap (fun p => oem_modes.map (fun o => (p, o))) =
      profile_list := by decide

/-- Shared bridge: the OCR retry loop equals its spec-side description. -/
theorem process_image_eq_recognize_spec (ocr : Nat → Nat → Option Str)
    (dflt : Option Str) : process_image ocr dflt = recognize_spec ocr dflt := by
  unfold process_image recognize_spec
  rw [tryPsms_eq, profile_list_eq]
  cases h : firstAcceptable ocr profile_list with
  | some t =>
    have ht := acceptable_isEmpty_false (firstAcceptable_acceptable h)
    simp [ht]
  | none => cases dflt <;> simp

/-- C1: the recognition engine tries profiles in the fixed order — page
segmentation modes [4, 6, 3, 1] outer, engine modes [1, 3] inner — accepting
an attempt iff its text is non-empty, not all-whitespace, and has trimmed
length > 10; the result returned is that of the first acceptable profile in
this iteration order (`recognize_spec` walks `profile_list` in priority order
and stops at the first acceptable output), so no earlier acceptable profile
is ever skipped in favor of a later one. -/
theorem c1_first_acceptable_profile_order (ocr : Nat → Nat → Option Str)
    (dflt : Option Str) : process_image ocr dflt = recognize_spec ocr dflt :=
  process_image_eq_recognize_spec ocr dflt

/-- C2: `process_image` always returns a non-empty text; when no profile in
the 8-attempt matrix is acceptable, the result is exactly that of the final
unconfigured default attempt if it returned non-empty text, and otherwise
(empty result or a raised default attempt) the fixed sentinel
"No text could be extracted from the image.", returned as an ordinary value
(in this model `process_image` is total: attempt failures are `none` oracle
answers, never propagated errors). -/
theorem c2_sentinel_and_nonempty (ocr : Nat → Nat → Option Str)
    (dflt : Option Str) :
    (process_image ocr dflt).isEmpty = false ∧
      (firstAcceptable ocr profile_list = none →
        process_image ocr dflt =
          match dflt with
          | some t => if t.isEmpty then sentinel_text else t
          | none => sentinel_text) := by
  rw [process_image_eq_recognize_spec]
  constructor
  · unfold recognize_spec
    cases h : firstAcceptable ocr profile_list with
    | some t => exact acceptable_isEmpty_false (firstAcceptable_acceptable h)
    | none =>
      cases dflt with
      | none => decide
      | some t =>
        by_cases ht : t.isEmpty
        · simp [ht]
          decide
        · simp [ht]
  · intro h
    unfold recognize_spec
    rw [h]

theorem c2_sentinel_and_nonempty_witness :
    process_image (fun _ _ => none) none = sentinel_text :=
  (c2_sentinel_and_nonempty (fun _ _ => none) none).2 rfl

/-- C3 counterexample: with a primary decode that succeeds, conditioning
steps that all raise, and a fallback decode that fails, `preprocess_image`
raises even though the input was decodable by the primary path — refuting
"fails iff the buffer cannot be decoded by either path" and "for every
decodable input an image is returned". -/
theorem c3_counterexample :
    isFailure (preprocess_image (some (0 : Nat)) (fun _ => none) none)
        = true ∧
      ¬ ((some 0 : Option Nat) = none ∧ (none : Option Nat) = none) := by
  constructor
  · rfl
  · simp

/-- C3 (amended): the conditioner fails iff the fallback decode fails AND
(the primary decode fails OR some conditioning step raises); in particular
a step exception falls back to the fallback-decoded image when that decode
succeeds, and when all steps succeed the processed image is returned. -/
theorem c3_decode_failure_characterization (Img : Type) (p : Option Img)
    (st : Img → Option Img) (f : Option Img) :
    (isFailure (preprocess_image p st f) = true ↔
        f = none ∧ (p = none ∨ ∃ i, p = some i ∧ st i = none)) ∧
      (∀ i fi, st i = none →
        preprocess_image (some i) st (some fi) = Except.ok fi) ∧
      (∀ i oi, st i = some oi →
        preprocess_image (some i) st f = Except.ok oi) := by
  refine ⟨?_, ?_, ?_⟩
  · cases p with
    | none => cases f <;> simp [preprocess_image, isFailure]
    | some i =>
      cases hs : st i with
      | none => cases f <;> simp [preprocess_image, isFailure, hs]
      | some oi => cases f <;> simp [preprocess_image, isFailure, hs]
  · intro i fi hs
    simp [preprocess_image, hs]
  · intro i oi hs
    simp [preprocess_image, hs]

theorem c3_decode_failure_characterization_witness :
    preprocess_image (some (0 : Nat)) (fun _ => none) (some 1) =
      Except.ok 1 :=
  (c3_decode_failure_characterization Nat (some 0) (fun _ => none)
    (some 1)).2.1 0 1 rfl

/-!
## Helper lemmas: entity extraction dispatch
-/

/-- Shared bridge: the dispatcher builds exactly the selected categories'
results (in insertion order) and keeps the truthy ones. -/
theorem extract_eq_selected (text : Str) (dt : String) :
    extract_medical_entities text dt =
      ((selectedCats dt).map (fun k => (k, runCat k text))).filter
        (fun kv => kv.2.truthy) := by
  by_cases h1 : dt = "prescription"
  · subst h1; rfl
  · by_cases h2 : dt = "lab_report"
    · subst h2; rfl
    · by_cases h3 : dt = "medical_note"
      · subst h3; rfl
      · unfold extract_medical_entities selectedCats
        rw [if_neg h1, if_neg h2, if_neg h3, if_neg h1, if_neg h2, if_neg h3]
        rfl

theorem mem_map_pair {cats : List String} {text : Str} {kv : String × EValue}
    (h : kv ∈ cats.map (fun k => (k, runCat k text))) : kv.1 ∈ cats := by
  obtain ⟨a, ha, heq⟩ := List.mem_map.mp h
  rw [← heq]
  exact ha

theorem lookup_none_of_keys {lst : List (String × EValue)} {k : String}
    (h : ∀ kv ∈ lst, kv.1 ≠ k) : lst.lookup k = none := by
  induction lst with
  | nil => rfl
  | cons kv rest ih =>
    obtain ⟨k', v'⟩ := kv
    have hk : k' ≠ k := h (k', v') (by simp)
    have hb : (k == k') = false := by
      simp [Ne.symm hk]
    simp only [List.lookup, hb]
    exact ih (fun kv hm => h kv (List.mem_cons_of_mem _ hm))

theorem mem_keys_filter (text : Str) (k : String) :
    ∀ cats : List String,
      (k ∈ ((cats.map (fun c => (c, runCat c text))).filter
          (fun kv => kv.2.truthy)).map Prod.fst) ↔
        (k ∈ cats ∧ (runCat k text).truthy = true) := by
  intro cats
  induction cats with
  | nil => simp
  | cons c rest ih =>
    simp only [List.map_cons]
    by_cases hc : (runCat c text).truthy = true
    · rw [List.filter_cons_of_pos (by simpa using hc)]
      simp only [List.map_cons, List.mem_cons, ih]
      constructor
      · rintro (rfl | ⟨hm, ht⟩)
        · exact ⟨Or.inl rfl, hc⟩
        · exact ⟨Or.inr hm, ht⟩
      · rintro ⟨rfl | hm, ht⟩
        · exact Or.inl rfl
        · exact Or.inr ⟨hm, ht⟩
    · rw [List.filter_cons_of_neg (by simpa using hc)]
      rw [ih]
      simp only [List.mem_cons]
      constructor
      · rintro ⟨hm, ht⟩
        exact ⟨Or.inr hm, ht⟩
      · rintro ⟨rfl | hm, ht⟩
        · exact absurd ht hc
        · exact ⟨hm, ht⟩

/-- A text on which every one of the seven category extractors produces at
least one item (checked by evaluation below). -/
def allCatsText : Str :=
  "Patient: John Smith\nDOB: 01/02/1980\nDr. Jane Doe\nPhone: 555-123-4567\nTake Aspirin 10 mg daily\nDiagnosis: flu\nGlucose: 95 mg/dL".data

set_option maxRecDepth 100000 in
/-- C4: extraction runs exactly the category extractors selected by the
document type — always dates and patient_info; plus medications, doctor_info,
instructions for "prescription"; plus lab_results, doctor_info for
"lab_report"; plus diagnoses, doctor_info, medications for "medical_note";
all seven for any other type.  In particular a "prescription" result never
contains a lab_results or diagnoses key, while an "other" result can contain
all seven categories (witnessed on `allCatsText`). -/
theorem c4_document_type_dispatch :
    (∀ (text : Str) (dt : String),
        extract_medical_entities text dt =
          ((selectedCats dt).map (fun k => (k, runCat k text))).filter
            (fun kv => kv.2.truthy)) ∧
      (∀ text : Str,
        (extract_medical_entities text "prescription").lookup "lab_results" =
            none ∧
          (extract_medical_entities text "prescription").lookup "diagnoses" =
            none) ∧
      (extract_medical_entities allCatsText "other").map Prod.fst =
        ["dates", "patient_info", "medications", "doctor_info",
         "instructions", "lab_results", "diagnoses"] := by
  refine ⟨extract_eq_selected, ?_, by decide⟩
  intro text
  constructor
  · rw [extract_eq_selected]
    apply lookup_none_of_keys
    intro kv hkv
    have h1 := mem_map_pair (List.mem_of_mem_filter hkv)
    have hsel : selectedCats "prescription" =
        ["dates", "patient_info", "medications", "doctor_info",
         "instructions"] := rfl
    rw [hsel] at h1
    simp only [List.mem_cons, List.not_mem_nil, or_false] at h1
    rcases h1 with h | h | h | h | h <;> simp [h]
  · rw [extract_eq_selected]
    apply lookup_none_of_keys
    intro kv hkv
    have h1 := mem_map_pair (List.mem_of_mem_filter hkv)
    have hsel : selectedCats "prescription" =
        ["dates", "patient_info", "medications", "doctor_info",
         "instructions"] := rfl
    rw [hsel] at h1
    simp only [List.mem_cons, List.not_mem_nil, or_false] at h1
    rcases h1 with h | h | h | h | h <;> simp [h]

/-- C5: omission invariant — a category key is present in the result iff the
category was selected for the document type and its extractor produced a
truthy (non-empty) value; every value stored under a present key is truthy,
so no key ever maps to an empty list or empty mapping. -/
theorem c5_omission_invariant (text : Str) (dt : String) (k : String) :
    (k ∈ (extract_medical_entities text dt).map Prod.fst ↔
        k ∈ selectedCats dt ∧ (runCat k text).truthy = true) ∧
      (∀ v : EValue, (k, v) ∈ extract_medical_entities text dt →
        v.truthy = true) := by
  constructor
  · rw [extract_eq_selected]
    exact mem_keys_filter text k (selectedCats dt)
  · intro v hv
    rw [extract_eq_selected] at hv
    simpa using List.of_mem_filter hv

set_option maxRecDepth 10000 in
theorem c5_omission_invariant_witness :
    (EValue.strs ["01/02/1980".data]).truthy = true :=
  (c5_omission_invariant "DOB: 01/02/1980".data "x" "dates").2
    (EValue.strs ["01/02/1980".data]) (by decide)

theorem buildF_error {E : String → Str → Except Unit EValue} {text : Str} :
    ∀ {cats : List String}, (∃ k ∈ cats, E k text = Except.error ()) →
      buildF E text cats = Except.error () := by
  intro cats
  induction cats with
  | nil => rintro ⟨k, hk, _⟩; exact absurd hk (List.not_mem_nil k)
  | cons c rest ih =>
    rintro ⟨k, hk, he⟩
    rcases List.mem_cons.mp hk with rfl | hm
    · unfold buildF
      rw [he]
    · unfold buildF
      cases hE : E c text with
      | error e => cases e; rfl
      | ok v =>
        rw [ih ⟨k, hm, he⟩]

theorem buildF_ok (text : Str) :
    ∀ cats : List String,
      buildF (fun k t => Except.ok (runCat k t)) text cats =
        Except.ok (cats.map (fun k => (k, runCat k text))) := by
  intro cats
  induction cats with
  | nil => rfl
  | cons c rest ih =>
    unfold buildF
    rw [ih]
    rfl

/-- C6: `extract_medical_entities` never propagates an extractor fault: if
any selected extractor raises, the whole call returns exactly the one-key
mapping `{"raw_text": text}` (all per-category results discarded); when no
extractor faults, the call agrees with the pure dispatcher (and is total —
recognition of the fault never escapes as an error). -/
theorem c6_fault_collapses_to_raw_text (E : String → Str → Except Unit EValue)
    (text : Str) (dt : String) :
    ((∃ k ∈ selectedCats dt, E k text = Except.error ()) →
        extract_medical_entities_f E text dt =
          [("raw_text", EValue.str text)]) ∧
      extract_medical_entities_f (fun k t => Except.ok (runCat k t)) text dt =
        extract_medical_entities text dt := by
  constructor
  · intro h
    unfold extract_medical_entities_f
    rw [buildF_error h]
  · unfold extract_medical_entities_f
    rw [buildF_ok]
    exact (extract_eq_selected text dt).symm

theorem c6_fault_collapses_to_raw_text_witness :
    extract_medical_entities_f (fun _ _ => Except.error ()) [] "prescription" =
      [("raw_text", EValue.str [])] :=
  (c6_fault_collapses_to_raw_text (fun _ _ => Except.error ()) []
    "prescription").1 ⟨"dates", by decide, rfl⟩

/-- C7 counterexample: on a text containing the same date twice, the slash
pattern's `findall` returns it twice — `extract_dates` does not deduplicate
within a single pattern's matches, so it differs from the claimed behaviour
(`extract_dates_claimed`, per-pattern deduplication) at this input. -/
theorem c7_counterexample :
    extract_dates "01/01/2000 01/01/2000".data =
        ["01/01/2000".data, "01/01/2000".data] ∧
      extract_dates_claimed "01/01/2000 01/01/2000".data =
        ["01/01/2000".data] ∧
      extract_dates "01/01/2000 01/01/2000".data ≠
        extract_dates_claimed "01/01/2000 01/01/2000".data :=
  ⟨by decide, by decide, by decide⟩

/-- C7 (amended): `extract_dates` is the plain concatenation of the four
patterns' case-insensitive `findall` results, in the fixed pattern order
(numeric slash, numeric dash, "Month DD, YYYY", "DD Month YYYY"), with no
deduplication at all — duplicates survive both within one pattern's matches
and across patterns. -/
theorem c7_dates_union_no_dedup (text : Str) :
    extract_dates text =
      findAllW true date_pat1 text ++ findAllW true date_pat2 text ++
        findAllW true date_pat3 text ++ findAllW true date_pat4 text := by
  simp [extract_dates, date_patterns, List.append_assoc]

/-- The spec's §8 prescription scenario text. -/
def scenarioText : Str :=
  "Patient: John Smith\nDOB: 01/02/1980\nTake Lisinopril 10 mg daily\nInstructions: take with food".data

set_option maxRecDepth 100000 in
/-- C8: evaluating the extractor at the spec's scenario input.  The dob,
medications, instructions and dates components are as the claim states, but
`patient_info.name` is `"John Smith\nDOB"`, not `"John Smith"`: with
`re.IGNORECASE` the `[a-z]+` name-word class also matches "OB" and `\s+`
crosses the newline, so the greedy `{1,2}` repetition swallows the next
label.  (The doctor_info category is empty on this text and hence absent.) -/
theorem c8_prescription_scenario_divergence :
    extract_medical_entities scenarioText "prescription" =
        [("dates", EValue.strs ["01/02/1980".data]),
         ("patient_info", EValue.dict
            [("name", "John Smith\nDOB".data), ("dob", "01/02/1980".data)]),
         ("medications", EValue.strs ["Lisinopril 10 mg".data]),
         ("instructions", EValue.strs
            ["daily".data, "Instructions: take with food".data])] ∧
      ("John Smith\nDOB".data : Str) ≠ "John Smith".data :=
  ⟨by decide, by decide⟩

/-!
## Helper lemmas: case-sensitivity of the doctor-name search (C10)
-/

theorem m_seq_nil {ci : Bool} {a b : RE} {prev : Option Char} {s : Str}
    (h : RE.m ci a prev s = []) : RE.m ci (RE.seq a b) prev s = [] := by
  simp [RE.m, h]

theorem m_alt_nil {ci : Bool} {a b : RE} {prev : Option Char} {s : Str}
    (ha : RE.m ci a prev s = []) (hb : RE.m ci b prev s = []) :
    RE.m ci (RE.alt a b) prev s = [] := by
  simp [RE.m, ha, hb]

theorem m_lit_nil_of_ne {pc : Char} {ps : Str} {prev : Option Char} {c : Char}
    {s : Str} (h : pc ≠ c) :
    RE.m false (RE.lit (pc :: ps)) prev (c :: s) = [] := by
  have hl : litM false (pc :: ps) (c :: s) = none := by
    simp [litM, eqC, h]
  simp [RE.m, hl]

/-- A pattern whose first token is an alternation of two literals beginning
with uppercase letters, searched case-sensitively, never matches inside a
text containing no uppercase ASCII letter. -/
theorem searchAux_upper_lit_none {b : RE} {p1 p2 : Char} {r1 r2 : Str}
    (hp1 : isUpperC p1 = true) (hp2 : isUpperC p2 = true) :
    ∀ s : Str, (∀ c ∈ s, isUpperC c = false) → ∀ prev : Option Char,
      searchAux false
        (RE.seq (RE.alt (RE.lit (p1 :: r1)) (RE.lit (p2 :: r2))) b) prev s =
        none := by
  intro s
  induction s with
  | nil => intro _ prev; rfl
  | cons c s' ih =>
    intro h prev
    have hc : isUpperC c = false := h c (List.mem_cons_self c s')
    have hne1 : p1 ≠ c := by
      intro he
      rw [he, hc] at hp1
      simp at hp1
    have hne2 : p2 ≠ c := by
      intro he
      rw [he, hc] at hp2
      simp at hp2
    have hm : RE.m false
        (RE.seq (RE.alt (RE.lit (p1 :: r1)) (RE.lit (p2 :: r2))) b) prev
        (c :: s') = [] :=
      m_seq_nil (m_alt_nil (m_lit_nil_of_ne hne1) (m_lit_nil_of_ne hne2))
    simp only [searchAux, hm]
    exact ih (fun x hx => h x (List.mem_cons_of_mem c hx)) (some c)

theorem searchAux_doctor_pat1_none (s : Str)
    (h : ∀ c ∈ s, isUpperC c = false) (prev : Option Char) :
    searchAux false doctor_pat1 prev s = none :=
  searchAux_upper_lit_none (by decide) (by decide) s h prev

theorem searchAux_doctor_pat2_none (s : Str)
    (h : ∀ c ∈ s, isUpperC c = false) (prev : Option Char) :
    searchAux false doctor_pat2 prev s = none :=
  searchAux_upper_lit_none (by decide) (by decide) s h prev

/-- C10: the doctor-name search is case-sensitive — on any text without an
uppercase ASCII letter (in particular a doctor mention written in lowercase,
e.g. "doctor jane doe") no name field is produced — while the phone-number
search on the very same lowercase text still succeeds, because it alone is
performed with `re.IGNORECASE`. -/
theorem c10_doctor_name_case_sensitive (t : Str)
    (h : ∀ c ∈ t, isUpperC c = false) :
    (extract_doctor_info t).lookup "name" = none ∧
      extract_doctor_info "doctor jane doe phone: 555-123-4567".data =
        [("phone", "555-123-4567".data)] := by
  constructor
  · have h1 : searchG1 false doctor_pat1 t = none := by
      unfold searchG1 reSearch
      rw [searchAux_doctor_pat1_none t h none]
      rfl
    have h2 : searchG1 false doctor_pat2 t = none := by
      unfold searchG1 reSearch
      rw [searchAux_doctor_pat2_none t h none]
      rfl
    unfold extract_doctor_info
    unfold searchFirstG1
    rw [h1]
    unfold searchFirstG1
    rw [h2]
    cases hp : searchG1 true phone_pattern t <;> rfl
  · decide

theorem c10_doctor_name_case_sensitive_witness :
    (extract_doctor_info "doctor jane doe phone: 555-123-4567".data).lookup
        "name" = none ∧
      extract_doctor_info "doctor jane doe phone: 555-123-4567".data =
        [("phone", "555-123-4567".data)] :=
  c10_doctor_name_case_sensitive "doctor jane doe phone: 555-123-4567".data
    (by decide)

/-!
## Helper lemmas: character case and the matcher's captures (C9)
-/

theorem char_le_iff_toNat (a c : Char) : (a ≤ c) ↔ a.toNat ≤ c.toNat :=
  ⟨fun h => h, fun h => h⟩

theorem toNat_ofNat_valid {n : Nat} (h : n.isValidChar) :
    (Char.ofNat n).toNat = n := by
  unfold Char.ofNat
  rw [dif_pos h]
  rfl

theorem toNat_toLower (c : Char) :
    c.toLower.toNat =
      if c.toNat ≥ 65 ∧ c.toNat ≤ 90 then c.toNat + 32 else c.toNat := by
  simp only [Char.toLower]
  split
  · rename_i h
    exact toNat_ofNat_valid (Or.inl (by omega))
  · rfl

theorem toNat_toUpper (c : Char) :
    c.toUpper.toNat =
      if c.toNat ≥ 97 ∧ c.toNat ≤ 122 then c.toNat - 32 else c.toNat := by
  simp only [Char.toUpper]
  split
  · rename_i h
    exact toNat_ofNat_valid (Or.inl (by omega))
  · rfl

theorem isDigitC_eq_toNat (c : Char) :
    isDigitC c = (decide (48 ≤ c.toNat) && decide (c.toNat ≤ 57)) := by
  unfold isDigitC
  rw [show decide ('0' ≤ c) = decide (48 ≤ c.toNat) from
        decide_eq_decide.mpr (char_le_iff_toNat '0' c),
      show decide (c ≤ '9') = decide (c.toNat ≤ 57) from
        decide_eq_decide.mpr (char_le_iff_toNat c '9')]

theorem isDigitC_toLower (c : Char) : isDigitC c.toLower = isDigitC c := by
  rw [isDigitC_eq_toNat, isDigitC_eq_toNat, toNat_toLower]
  split
  · rename_i h
    have h1 : decide (c.toNat + 32 ≤ 57) = false := decide_eq_false (by omega)
    have h2 : decide (c.toNat ≤ 57) = false := decide_eq_false (by omega)
    rw [h1, h2, Bool.and_false, Bool.and_false]
  · rfl

theorem isDigitC_toUpper (c : Char) : isDigitC c.toUpper = isDigitC c := by
  rw [isDigitC_eq_toNat, isDigitC_eq_toNat, toNat_toUpper]
  split
  · rename_i h
    have h1 : decide (c.toNat - 32 ≤ 57) = false := decide_eq_false (by omega)
    have h2 : decide (c.toNat ≤ 57) = false := decide_eq_false (by omega)
    rw [h1, h2, Bool.and_false, Bool.and_false]
  · rfl

/-- Under `IGNORECASE`, the digit class still accepts exactly digits. -/
theorem inCls_digit (c : Char) : inCls true isDigitC c = isDigitC c := by
  simp [inCls, isDigitC_toLower, isDigitC_toUpper]

theorem toLower_eq_of_isDigitC {c : Char} (h : isDigitC c = true) :
    c.toLower = c := by
  have hn := toNat_toLower c
  rw [if_neg] at hn
  · exact Char.ext (UInt32.toNat.inj hn)
  · rw [isDigitC_eq_toNat] at h
    simp only [Bool.and_eq_true, decide_eq_true_eq] at h
    omega

theorem lowerS_append (a b : Str) : lowerS (a ++ b) = lowerS a ++ lowerS b :=
  List.map_append Char.toLower a b

theorem lowerS_eq_self_of_digits {u : Str} (h : ∀ c ∈ u, isDigitC c = true) :
    lowerS u = u := by
  unfold lowerS
  rw [List.map_congr_left (fun c hc => toLower_eq_of_isDigitC (h c hc))]
  exact List.map_id u

theorem litM_sound {ci : Bool} :
    ∀ {l s u r : Str}, litM ci l s = some (u, r) →
      s = u ++ r ∧ List.Forall₂ (fun p c => eqC ci p c = true) l u := by
  intro l
  induction l with
  | nil =>
    intro s u r h
    injection h with h2
    injection h2 with h3 h4
    subst h3
    subst h4
    exact ⟨rfl, List.Forall₂.nil⟩
  | cons p ps ih =>
    intro s u r h
    cases s with
    | nil => simp [litM] at h
    | cons c s' =>
      unfold litM at h
      by_cases he : eqC ci p c = true
      · rw [if_pos he] at h
        cases hm : litM ci ps s' with
        | none => rw [hm] at h; simp at h
        | some ur' =>
          obtain ⟨u', r'⟩ := ur'
          rw [hm] at h
          simp at h
          obtain ⟨rfl, rfl⟩ := h
          obtain ⟨hs, hf⟩ := ih hm
          exact ⟨by rw [hs]; rfl, List.Forall₂.cons he hf⟩
      · rw [if_neg he] at h
        simp at h

theorem forall₂_eqC_lowerS {l u : Str}
    (hf : List.Forall₂ (fun p c => eqC true p c = true) l u) :
    lowerS u = lowerS l := by
  induction hf with
  | nil => rfl
  | @cons p c l' u' hpc _ ih =>
    have : p.toLower = c.toLower := by
      simpa [eqC] using hpc
    simp only [lowerS, List.map_cons]
    rw [show c.toLower = p.toLower from this.symm]
    exact congrArg _ ih

theorem takeRun_append (f : Char → Bool) :
    ∀ s : Str, (takeRun f s).1 ++ (takeRun f s).2 = s := by
  intro s
  induction s with
  | nil => rfl
  | cons c rest ih =>
    unfold takeRun
    by_cases hc : f c = true
    · simp only [hc, if_true]
      simpa using ih
    · simp [hc]

theorem takeRun_all (f : Char → Bool) :
    ∀ s : Str, ∀ c ∈ (takeRun f s).1, f c = true := by
  intro s
  induction s with
  | nil => intro c hc; simp [takeRun] at hc
  | cons d rest ih =>
    intro c hc
    unfold takeRun at hc
    by_cases hd : f d = true
    · simp only [hd, if_true] at hc
      rcases List.mem_cons.mp hc with rfl | hm
      · exact hd
      · exact ih c hm
    · simp [hd] at hc

theorem splitsDesc_mem {u r x y : Str} :
    (x, y) ∈ splitsDesc u r → ∃ z : Str, u = x ++ z ∧ y = z ++ r := by
  induction u generalizing x with
  | nil =>
    intro h
    simp only [splitsDesc, List.mem_singleton, Prod.mk.injEq] at h
    obtain ⟨rfl, rfl⟩ := h
    exact ⟨[], rfl, rfl⟩
  | cons c u' ih =>
    intro h
    unfold splitsDesc at h
    rcases List.mem_append.mp h with hm | hm
    · obtain ⟨⟨x', y'⟩, hxy, heq⟩ := List.mem_map.mp hm
      simp only [Prod.mk.injEq] at heq
      obtain ⟨rfl, rfl⟩ := heq
      obtain ⟨z, hz1, hz2⟩ := ih hxy
      exact ⟨z, by rw [hz1]; rfl, hz2⟩
    · simp only [List.mem_singleton, Prod.mk.injEq] at hm
      obtain ⟨rfl, rfl⟩ := hm
      exact ⟨c :: u', rfl, rfl⟩

theorem splitsDesc_dropLast_ne_nil {u r x y : Str} :
    (x, y) ∈ (splitsDesc u r).dropLast → x ≠ [] := by
  induction u generalizing x with
  | nil => intro h; simp [splitsDesc] at h
  | cons c u' ih =>
    intro h
    unfold splitsDesc at h
    rw [List.dropLast_concat] at h
    obtain ⟨⟨x', y'⟩, _, heq⟩ := List.mem_map.mp h
    simp only [Prod.mk.injEq] at heq
    obtain ⟨rfl, rfl⟩ := heq
    exact List.cons_ne_nil c x'

theorem splitsDesc_dropLast_sub {u r : Str} {x : Str × Str}
    (h : x ∈ (splitsDesc u r).dropLast) : x ∈ splitsDesc u r :=
  List.dropLast_subset _ h

theorem m_eps_mem {ci : Bool} {prev : Option Char} {s : Str}
    {x : Str × Str × Caps} (h : x ∈ RE.m ci RE.eps prev s) :
    x = ([], s, []) := by
  simpa [RE.m] using h

theorem m_lit_mem {ci : Bool} {lt : Str} {prev : Option Char} {s : Str}
    {x : Str × Str × Caps} (h : x ∈ RE.m ci (RE.lit lt) prev s) :
    ∃ u r : Str, litM ci lt s = some (u, r) ∧ x = (u, r, []) := by
  simp only [RE.m] at h
  cases hl : litM ci lt s with
  | none => rw [hl] at h; simp at h
  | some ur =>
    obtain ⟨u, r⟩ := ur
    rw [hl] at h
    simp only [List.mem_singleton] at h
    exact ⟨u, r, rfl, h⟩

theorem m_seq_mem {ci : Bool} {a b : RE} {prev : Option Char} {s : Str}
    {x : Str × Str × Caps} (h : x ∈ RE.m ci (RE.seq a b) prev s) :
    ∃ (u r : Str) (cu : Caps) (v r2 : Str) (cv : Caps),
      (u, r, cu) ∈ RE.m ci a prev s ∧
        (v, r2, cv) ∈ RE.m ci b (lastPrev u prev) r ∧
        x = (u ++ v, r2, cu ++ cv) := by
  simp only [RE.m, List.mem_flatMap, List.mem_map] at h
  obtain ⟨⟨u, r, cu⟩, hu, ⟨⟨v, r2, cv⟩, hv, heq⟩⟩ := h
  exact ⟨u, r, cu, v, r2, cv, hu, hv, heq.symm⟩

theorem m_alt_mem {ci : Bool} {a b : RE} {prev : Option Char} {s : Str}
    {x : Str × Str × Caps} (h : x ∈ RE.m ci (RE.alt a b) prev s) :
    x ∈ RE.m ci a prev s ∨ x ∈ RE.m ci b prev s := by
  simpa [RE.m] using h

theorem m_grp_mem {ci : Bool} {i : Nat} {a : RE} {prev : Option Char}
    {s : Str} {x : Str × Str × Caps} (h : x ∈ RE.m ci (RE.grp i a) prev s) :
    ∃ (u r : Str) (cu : Caps),
      (u, r, cu) ∈ RE.m ci a prev s ∧ x = (u, r, (i, u) :: cu) := by
  simp only [RE.m, List.mem_map] at h
  obtain ⟨⟨u, r, cu⟩, hu, heq⟩ := h
  exact ⟨u, r, cu, hu, heq.symm⟩

theorem m_plusCls_mem {ci : Bool} {p : Char → Bool} {prev : Option Char}
    {s : Str} {x : Str × Str × Caps}
    (h : x ∈ RE.m ci (RE.plusCls p) prev s) :
    ∃ u r : Str, x = (u, r, []) ∧ s = u ++ r ∧ u ≠ [] ∧
      ∀ c ∈ u, inCls ci p c = true := by
  simp only [RE.m, List.mem_map] at h
  obtain ⟨⟨u, r⟩, hm, heq⟩ := h
  refine ⟨u, r, heq.symm, ?_, splitsDesc_dropLast_ne_nil hm, ?_⟩
  · obtain ⟨z, hz1, hz2⟩ := splitsDesc_mem (splitsDesc_dropLast_sub hm)
    rw [← takeRun_append (inCls ci p) s, hz1, hz2]
    simp [List.append_assoc]
  · intro c hc
    obtain ⟨z, hz1, _⟩ := splitsDesc_mem (splitsDesc_dropLast_sub hm)
    exact takeRun_all (inCls ci p) s c (by rw [hz1]; exact List.mem_append_left z hc)

theorem head?_mem {α : Type} {lst : List α} {a : α} (h : lst.head? = some a) :
    a ∈ lst := by
  cases lst with
  | nil => simp at h
  | cons b rest =>
    simp only [List.head?_cons, Option.some.injEq] at h
    rw [← h]
    exact List.mem_cons_self b rest

theorem findAllAux_mem {ci : Bool} {re : RE} :
    ∀ {fuel : Nat} {prev : Option Char} {s : Str} {uc : Str × Caps},
      uc ∈ findAllAux ci re fuel prev s →
      ∃ (prev' : Option Char) (s' r : Str),
        (uc.1, r, uc.2) ∈ RE.m ci re prev' s' := by
  intro fuel
  induction fuel with
  | zero => intro prev s uc h; simp [findAllAux] at h
  | succ n ih =>
    intro prev s uc h
    cases s with
    | nil =>
      unfold findAllAux at h
      split at h
      · rename_i u rest caps hm
        by_cases hu : u.isEmpty
        · rw [if_pos hu] at h
          rw [List.mem_singleton.mp h]
          exact ⟨prev, [], rest, head?_mem hm⟩
        · rw [if_neg hu] at h
          rcases List.mem_cons.mp h with rfl | h2
          · exact ⟨prev, [], rest, head?_mem hm⟩
          · exact ih h2
      · simp at h
    | cons c s' =>
      unfold findAllAux at h
      split at h
      · rename_i u rest caps hm
        by_cases hu : u.isEmpty
        · rw [if_pos hu] at h
          rcases List.mem_cons.mp h with rfl | h2
          · exact ⟨prev, c :: s', rest, head?_mem hm⟩
          · exact ih h2
        · rw [if_neg hu] at h
          rcases List.mem_cons.mp h with rfl | h2
          · exact ⟨prev, c :: s', rest, head?_mem hm⟩
          · exact ih h2
      · exact ih h

theorem findAll_mem {ci : Bool} {re : RE} {s : Str} {uc : Str × Caps}
    (h : uc ∈ findAll ci re s) :
    ∃ (prev' : Option Char) (s' r : Str),
      (uc.1, r, uc.2) ∈ RE.m ci re prev' s' :=
  findAllAux_mem h

theorem trip_parts {u r : Str} {c : Caps} {u' r' : Str} {c' : Caps}
    (h : (u, r, c) = (u', r', c')) : u = u' ∧ r = r' ∧ c = c' :=
  ⟨congrArg (fun x => x.1) h, congrArg (fun x => x.2.1) h,
   congrArg (fun x => x.2.2) h⟩

/-- What a capture of the frequency alternation can be: one of the three
fixed tokens (up to letter case) or an "every N hours" form. -/
def isFreqToken (g : Str) : Prop :=
  lowerS g = "daily".data ∨ lowerS g = "twice daily".data ∨
    lowerS g = "three times daily".data ∨
    ∃ ds : Str, ds ≠ [] ∧ (∀ c ∈ ds, isDigitC c = true) ∧
      lowerS g = "every ".data ++ ds ++ " hours".data

theorem freqRE_match_isFreq {prev : Option Char} {s : Str} {u r : Str}
    {cu : Caps} (h : (u, r, cu) ∈ RE.m true freqRE prev s) :
    isFreqToken u ∧ cu = [] := by
  rcases m_alt_mem h with h1 | h'
  · obtain ⟨u', r', hl, heq⟩ := m_lit_mem h1
    obtain ⟨rfl, rfl, rfl⟩ := trip_parts heq
    refine ⟨Or.inl ?_, rfl⟩
    rw [forall₂_eqC_lowerS (litM_sound hl).2]
    decide
  · rcases m_alt_mem h' with h2 | h''
    · obtain ⟨u', r', hl, heq⟩ := m_lit_mem h2
      obtain ⟨rfl, rfl, rfl⟩ := trip_parts heq
      refine ⟨Or.inr (Or.inl ?_), rfl⟩
      rw [forall₂_eqC_lowerS (litM_sound hl).2]
      decide
    · rcases m_alt_mem h'' with h3 | h4
      · obtain ⟨u', r', hl, heq⟩ := m_lit_mem h3
        obtain ⟨rfl, rfl, rfl⟩ := trip_parts heq
        refine ⟨Or.inr (Or.inr (Or.inl ?_)), rfl⟩
        rw [forall₂_eqC_lowerS (litM_sound hl).2]
        decide
      · obtain ⟨ua, ra, ca, va, ra2, cva, hL1, hA, heqA⟩ := m_seq_mem h4
        obtain ⟨ua', ra', hl1, heq1⟩ := m_lit_mem hL1
        obtain ⟨rfl, rfl, rfl⟩ := trip_parts heq1
        obtain ⟨ub, rb, cb, vb, rb2, cvb, hP, hB, heqB⟩ := m_seq_mem hA
        obtain ⟨ub', rb', heq2, hsb, hneb, hdig⟩ := m_plusCls_mem hP
        obtain ⟨rfl, rfl, rfl⟩ := trip_parts heq2
        obtain ⟨uc, rc, cc, vc, rc2, cvc, hL2, hE, heqC⟩ := m_seq_mem hB
        obtain ⟨uc', rc', hl3, heq3⟩ := m_lit_mem hL2
        obtain ⟨rfl, rfl, rfl⟩ := trip_parts heq3
        obtain ⟨rfl, rfl, rfl⟩ := trip_parts (m_eps_mem hE)
        obtain ⟨huT, hrT, hcT⟩ := trip_parts heqA
        obtain ⟨huB, hrB, hcB⟩ := trip_parts heqB
        obtain ⟨huC, hrC, hcC⟩ := trip_parts heqC
        have hdig' : ∀ c ∈ ub, isDigitC c = true := by
          intro c hc
          rw [← inCls_digit c]
          exact hdig c hc
        constructor
        · refine Or.inr (Or.inr (Or.inr ⟨ub, hneb, hdig', ?_⟩))
          rw [huT, huB, huC]
          rw [lowerS_append, lowerS_append, lowerS_append]
          rw [forall₂_eqC_lowerS (litM_sound hl1).2,
              forall₂_eqC_lowerS (litM_sound hl3).2,
              lowerS_eq_self_of_digits hdig']
          rw [show lowerS "every ".data = "every ".data from by decide,
              show lowerS " hours".data = " hours".data from by decide]
          simp [lowerS]
        · rw [hcT, hcB, hcC]
          simp

set_option maxRecDepth 2000 in
theorem instr_pat1_capture {prev : Option Char} {s u r : Str} {caps : Caps}
    (h : (u, r, caps) ∈ RE.m true instr_pat1 prev s) :
    ∃ g : Str, caps.lookup 1 = some g ∧ isFreqToken g := by
  obtain ⟨uA, rA, cA, v1, rr1, c1, hA, h1, heqT⟩ := m_seq_mem h
  have hcA : cA = [] := by
    rcases m_alt_mem hA with ha | hbc
    · obtain ⟨_, _, _, heq⟩ := m_lit_mem ha
      exact (trip_parts heq).2.2
    · rcases m_alt_mem hbc with hb | hc
      · obtain ⟨_, _, _, heq⟩ := m_lit_mem hb
        exact (trip_parts heq).2.2
      · obtain ⟨_, _, _, heq⟩ := m_lit_mem hc
        exact (trip_parts heq).2.2
  obtain ⟨uB, rB, cB, v2, rr2, c2, hB, h2, heq1⟩ := m_seq_mem h1
  obtain ⟨uB', rB', heqB, _, _, _⟩ := m_plusCls_mem hB
  have hcB : cB = [] := (trip_parts heqB).2.2
  obtain ⟨uC, rC, cC, v3, rr3, c3, hC, h3, heq2⟩ := m_seq_mem h2
  obtain ⟨ug, rg, cg, hfm, heqG⟩ := m_grp_mem hC
  obtain ⟨hfreq, hcg⟩ := freqRE_match_isFreq hfm
  have hcC : cC = (1, ug) :: cg := (trip_parts heqG).2.2
  obtain ⟨uD, rD, cD, v4, rr4, c4, hD, h4, heq3⟩ := m_seq_mem h3
  obtain ⟨uD', rD', heqD, _, _, _⟩ := m_plusCls_mem hD
  have hcD : cD = [] := (trip_parts heqD).2.2
  have hc4 : c4 = [] := (trip_parts (m_eps_mem h4)).2.2
  have hcaps : caps = [(1, ug)] := by
    rw [(trip_parts heqT).2.2, hcA, (trip_parts heq1).2.2, hcB,
        (trip_parts heq2).2.2, hcC, hcg, (trip_parts heq3).2.2, hcD, hc4]
    simp
  exact ⟨ug, by rw [hcaps]; rfl, hfreq⟩

theorem isPrefixB_self_append (a b : Str) : isPrefixB a (a ++ b) = true := by
  induction a with
  | nil => rfl
  | cons c a' ih => simpa [isPrefixB] using ih

theorem labelled_run_match (w : Str) {prev : Option Char} {s u r : Str}
    {caps : Caps}
    (h : (u, r, caps) ∈ RE.m true
        (reSeq [RE.lit w, rOpt (RE.lit "s".data), RE.lit ":".data,
                RE.plusCls notDotSemiC]) prev s) :
    isPrefixB (lowerS w) (lowerS u) = true ∧
      ∀ c ∈ u, c.toLower ∈ lowerS w ∨ c.toLower = 's' ∨ c.toLower = ':' ∨
        inCls true notDotSemiC c = true := by
  obtain ⟨u1, r1, c1, v1, rr1, cv1, hL, h1, heqT⟩ := m_seq_mem h
  obtain ⟨u1', r1', hl1, heq1⟩ := m_lit_mem hL
  obtain ⟨rfl, rfl, rfl⟩ := trip_parts heq1
  obtain ⟨u2, r2, c2, v2, rr2, cv2, hO, h2, heqB⟩ := m_seq_mem h1
  obtain ⟨u3, r3, c3, v3, rr3, cv3, hC, h3, heqC⟩ := m_seq_mem h2
  obtain ⟨u3', r3', hl3, heq3⟩ := m_lit_mem hC
  obtain ⟨rfl, rfl, rfl⟩ := trip_parts heq3
  obtain ⟨u4, r4, c4, v4, rr4, cv4, hP, h4, heqD⟩ := m_seq_mem h3
  obtain ⟨u4', r4', heq4, hs4, hne4, hcls⟩ := m_plusCls_mem hP
  obtain ⟨rfl, rfl, rfl⟩ := trip_parts heq4
  obtain ⟨rfl, rfl, rfl⟩ := trip_parts (m_eps_mem h4)
  have hu : u = u1 ++ (u2 ++ (u3 ++ (u4 ++ []))) := by
    rw [(trip_parts heqT).1, (trip_parts heqB).1, (trip_parts heqC).1,
        (trip_parts heqD).1]
  have hu2 : ∀ c ∈ u2, c.toLower = 's' := by
    rcases m_alt_mem hO with ho | ho
    · obtain ⟨u2', r2', hl2, heq2⟩ := m_lit_mem ho
      obtain ⟨rfl, rfl, rfl⟩ := trip_parts heq2
      intro c hc
      have hcm : c.toLower ∈ lowerS u2 := List.mem_map_of_mem _ hc
      rw [forall₂_eqC_lowerS (litM_sound hl2).2] at hcm
      simpa [lowerS] using hcm
    · intro c hc
      rw [(trip_parts (m_eps_mem ho)).1] at hc
      simp at hc
  constructor
  · rw [hu, lowerS_append, forall₂_eqC_lowerS (litM_sound hl1).2]
    exact isPrefixB_self_append _ _
  · intro c hc
    rw [hu] at hc
    rcases List.mem_append.mp hc with h1c | hc
    · left
      have hm : c.toLower ∈ lowerS u1 := List.mem_map_of_mem Char.toLower h1c
      rwa [forall₂_eqC_lowerS (litM_sound hl1).2] at hm
    rcases List.mem_append.mp hc with h2c | hc
    · exact Or.inr (Or.inl (hu2 c h2c))
    rcases List.mem_append.mp hc with h3c | hc
    · refine Or.inr (Or.inr (Or.inl ?_))
      have hm : c.toLower ∈ lowerS u3 := List.mem_map_of_mem Char.toLower h3c
      rw [forall₂_eqC_lowerS (litM_sound hl3).2] at hm
      simpa [lowerS] using hm
    rcases List.mem_append.mp hc with h4c | hc
    · exact Or.inr (Or.inr (Or.inr (hcls c h4c)))
    · simp at hc

theorem ne_dot_semi_of_lower {c : Char} (L : Str)
    (hL1 : '.' ∉ L) (hL2 : ';' ∉ L)
    (h : c.toLower ∈ L ∨ c.toLower = 's' ∨ c.toLower = ':' ∨
      inCls true notDotSemiC c = true) : c ≠ '.' ∧ c ≠ ';' := by
  constructor
  · intro he
    subst he
    rcases h with h | h | h | h
    · exact hL1 (by rw [show Char.toLower '.' = '.' from by decide] at h; exact h)
    · exact absurd h (by decide)
    · exact absurd h (by decide)
    · exact absurd h (by decide)
  · intro he
    subst he
    rcases h with h | h | h | h
    · exact hL2 (by rw [show Char.toLower ';' = ';' from by decide] at h; exact h)
    · exact absurd h (by decide)
    · exact absurd h (by decide)
    · exact absurd h (by decide)

/-- C9: entries the instructions extractor adds via the "Take/Use/Apply ..."
pattern are only the captured frequency token (because the pattern's single
capture group determines what `findall` returns) — one of "daily",
"twice daily", "three times daily" (up to letter case) or an
"every N hours" form — never the full instruction phrase; entries from the
"Instructions:"/"Directions:" patterns are the full matched segment: they
begin with the label (case-insensitively) and run up to the next period or
semicolon, so they never contain '.' or ';'. -/
theorem c9_instruction_entry_shapes (text : Str) :
    (∀ g ∈ findAllG1 true instr_pat1 text, isFreqToken g) ∧
      (∀ e ∈ findAllW true instr_pat2 text,
        isPrefixB "instruction".data (lowerS e) = true ∧
          ∀ c ∈ e, c ≠ '.' ∧ c ≠ ';') ∧
      (∀ e ∈ findAllW true instr_pat3 text,
        isPrefixB "direction".data (lowerS e) = true ∧
          ∀ c ∈ e, c ≠ '.' ∧ c ≠ ';') := by
  refine ⟨?_, ?_, ?_⟩
  · intro g hg
    obtain ⟨⟨u, caps⟩, hmem, heq⟩ := List.mem_map.mp hg
    obtain ⟨prev', s', r, hmm⟩ := findAll_mem hmem
    obtain ⟨g', hlk, hfreq⟩ := instr_pat1_capture hmm
    have hgd : (caps.lookup 1).getD [] = g := heq
    rw [← hgd, hlk]
    exact hfreq
  · intro e he
    obtain ⟨⟨u, caps⟩, hmem, heq⟩ := List.mem_map.mp he
    obtain ⟨prev', s', r, hmm⟩ := findAll_mem hmem
    have hue : u = e := heq
    subst hue
    obtain ⟨hpre, hchars⟩ := labelled_run_match "Instruction".data hmm
    constructor
    · rw [show ("instruction".data : Str) = lowerS "Instruction".data from
            by decide]
      exact hpre
    · intro c hc
      exact ne_dot_semi_of_lower (lowerS "Instruction".data)
        (by decide) (by decide) (hchars c hc)
  · intro e he
    obtain ⟨⟨u, caps⟩, hmem, heq⟩ := List.mem_map.mp he
    obtain ⟨prev', s', r, hmm⟩ := findAll_mem hmem
    have hue : u = e := heq
    subst hue
    obtain ⟨hpre, hchars⟩ := labelled_run_match "Direction".data hmm
    constructor
    · rw [show ("direction".data : Str) = lowerS "Direction".data from
            by decide]
      exact hpre
    · intro c hc
      exact ne_dot_semi_of_lower (lowerS "Direction".data)
        (by decide) (by decide) (hchars c hc)

set_option maxRecDepth 40000 in
theorem c9_instruction_entry_shapes_witness :
    isFreqToken "daily".data ∧
      (isPrefixB "instruction".data
          (lowerS "Instructions: rest".data) = true ∧
        ∀ c ∈ ("Instructions: rest".data : Str), c ≠ '.' ∧ c ≠ ';') :=
  ⟨(c9_instruction_entry_shapes
      "Take Aspirin 1 mg daily now\nInstructions: rest".data).1
      "daily".data (by decide),
   (c9_instruction_entry_shapes
      "Take Aspirin 1 mg daily now\nInstructions: rest".data).2.1
      "Instructions: rest".data (by decide)⟩
